import Mathlib

/-!
Verification of the wayback_downloader crawl-and-rewrite engine.

This file shallowly embeds the pure core of `wayback_downloader.py`
(URL classification, archive-URL translation, URL-to-file-path mapping,
the retry/backoff loop, the per-reference HTML rewriting step, and the
BFS crawl loop) as executable Lean definitions over `List Char`, and
proves the spec's claims about them.

Conventions:
- Python strings are modelled as `List Char` (`Chars`).
- Python's `urllib.parse.urlparse` is modelled by `urlparse` below,
  following the splitting algorithm of CPython 3.11's `urlsplit` plus
  the params split of `urlparse` (see the doc comments for the modelled
  subset).
- Side-effecting collaborators (network fetch, HTML tag enumeration,
  `urljoin`, `os.path.relpath`) are abstracted as environment functions,
  as the spec itself treats them as external collaborators.
-/

/-- Python strings are modelled as lists of characters. -/
abbrev Chars := List Char

/-- Models Python `s.rstrip("/")`: remove all trailing `/` characters. -/
def rstripSlash (s : Chars) : Chars :=
  (s.reverse.dropWhile (fun c => c == '/')).reverse

/-- Models Python `s.lstrip("/")`: remove all leading `/` characters. -/
def lstripSlash (s : Chars) : Chars :=
  s.dropWhile (fun c => c == '/')

/-- Models Python's single-character `s.replace(a, b)`. -/
def mapReplace (a b : Char) (s : Chars) : Chars :=
  s.map (fun c => if c = a then b else c)

/-- Models Python `s.split("/")`: split into chunks at every `/`.
The result is never empty; an empty string yields `[[]]`. -/
def splitSlash : Chars → List Chars
  | [] => [[]]
  | c :: t =>
    let r := splitSlash t
    if c = '/' then [] :: r
    else
      match r with
      | [] => [[c]]
      | h :: tr => (c :: h) :: tr

/-- The components of a POSIX path as `pathlib.PurePosixPath` computes
them: the `/`-separated chunks with empty chunks and `.` chunks dropped
(pathlib collapses spurious slashes and single dots). The root marker is
irrelevant to `.name`, which is all this model is used for. -/
def pathComponents (p : Chars) : List Chars :=
  (splitSlash p).filter (fun c => !(c == [] || c == ('.' :: [])))

/-- Models Python `pathlib.PurePosixPath(p).name`: the last normalized
path component, or the empty string when there is none. -/
def posixName (p : Chars) : Chars :=
  (pathComponents p).getLast?.getD []

/-- Models Python `pathlib.PurePosixPath(p).parent` rendered back to a
string: drop the last normalized component, keeping a leading `/` for
absolute paths; a component-less result is `.` as in pathlib. Only used
as the directory argument handed to the abstracted `os.path.relpath`
collaborator. -/
def posixParent (p : Chars) : Chars :=
  let comps := (pathComponents p).dropLast
  let pre : Chars := if (('/' :: []) : Chars).isPrefixOf p then '/' :: [] else []
  match comps with
  | [] => if pre = [] then '.' :: [] else pre
  | cs => pre ++ List.intercalate ('/' :: []) cs

/-- Models Python `path.endswith("/")`. -/
def endsSlash (p : Chars) : Bool :=
  match p.getLast? with
  | some c => c = '/'
  | none => false

/-- Characters allowed in a URL scheme by CPython's `urllib.parse`
(`scheme_chars`): ASCII letters, digits, `+`, `-`, `.`. -/
def schemeChar (c : Char) : Bool :=
  c.isAlpha || c.isDigit || c == '+' || c == '-' || c == '.'

/-- Result record of the modelled `urllib.parse.urlparse`. The `params`
component is folded into the path split (`splitParamsPath`) and not
stored separately, since the source only ever reads `netloc`, `path`
and `query`. -/
structure UrlParts where
  scheme : Chars
  netloc : Chars
  path : Chars
  query : Chars
  fragment : Chars
deriving DecidableEq

/-- Scheme split of CPython 3.11 `urlsplit`: the text before the first
`:` becomes the (lowercased) scheme when it is non-empty, starts with an
ASCII letter and consists of scheme characters only; otherwise the URL
is left intact. -/
def splitScheme (url : Chars) : Chars × Chars :=
  if ':' ∈ url then
    match url.takeWhile (fun c => c != ':') with
    | [] => ([], url)
    | c :: cs =>
      if c.isAlpha && (c :: cs).all schemeChar then
        ((c :: cs).map Char.toLower, (url.dropWhile (fun c2 => c2 != ':')).tail)
      else ([], url)
  else ([], url)

/-- Netloc split of `urlsplit`: when the remainder starts with `//`, the
netloc is everything up to the next `/`, `?` or `#`. (CPython's bracket
validation errors for malformed IPv6 literals are not modelled; the
source code catches those `ValueError`s and they do not occur on the
URL shapes the claims quantify over.) -/
def splitNetloc (u : Chars) : Chars × Chars :=
  if (('/' :: '/' :: []) : Chars).isPrefixOf u then
    let r := u.drop 2
    (r.takeWhile (fun c => !(c == '/' || c == '?' || c == '#')),
     r.dropWhile (fun c => !(c == '/' || c == '?' || c == '#')))
  else ([], u)

/-- Fragment split of `urlsplit`: `url.split('#', 1)` when `#` occurs. -/
def splitFragment (u : Chars) : Chars × Chars :=
  if '#' ∈ u then (u.takeWhile (fun c => c != '#'), (u.dropWhile (fun c => c != '#')).tail)
  else (u, [])

/-- Query split of `urlsplit`: `url.split('?', 1)` when `?` occurs. -/
def splitQuery (u : Chars) : Chars × Chars :=
  if '?' ∈ u then (u.takeWhile (fun c => c != '?'), (u.dropWhile (fun c => c != '?')).tail)
  else (u, [])

/-- Models CPython's `_splitparams` applied to a path, returning the
path with params removed: the params are everything after the first `;`
occurring in the last `/`-separated segment (or anywhere, when the path
has no `/`). -/
def splitParamsPath (p : Chars) : Chars :=
  if '/' ∈ p then
    let b := (p.reverse.takeWhile (fun c => c != '/')).reverse
    if ';' ∈ b then (p.reverse.dropWhile (fun c => c != '/')).reverse ++ b.takeWhile (fun c => c != ';')
    else p
  else if ';' ∈ p then p.takeWhile (fun c => c != ';') else p

/-- The schemes for which `urlparse` performs the params split
(CPython's `uses_params`, with the empty scheme included). -/
def usesParams : List Chars :=
  ["", "ftp", "hdl", "prospero", "http", "imap", "https", "shttp", "rtsp",
   "rtspu", "sip", "sips", "mms", "sftp", "tel"].map String.toList

/-- The leading-whitespace strip CPython's `urlsplit` performs first:
leading C0 control characters and spaces (code points up to 0x20) are
removed from the URL (`_WHATWG_C0_CONTROL_OR_SPACE`); trailing ones are
preserved. -/
def lstripControl (url : Chars) : Chars :=
  url.dropWhile (fun c => decide (c.toNat ≤ 32))

/-- The unsafe-byte removal CPython's `urlsplit` performs next:
tab, carriage return and newline characters are removed from the URL
(`_UNSAFE_URL_BYTES_TO_REMOVE`). -/
def removeUnsafe (url : Chars) : Chars :=
  url.filter (fun c => !(c == '\t' || c == '\r' || c == '\n'))

/-- Models `urllib.parse.urlparse` (CPython 3.11): whitespace strip and
unsafe-byte removal, then scheme, netloc, fragment and query splits in that order, then the
params split on the path for schemes in `uses_params`. Unicode NFKC
validation and netloc bracket checks are not modelled (the source
catches the resulting `ValueError`s where it parses untrusted
strings). -/
def urlparse (url : Chars) : UrlParts :=
  let s1 := splitScheme (removeUnsafe (lstripControl url))
  let s2 := splitNetloc s1.2
  let s3 := splitFragment s2.2
  let s4 := splitQuery s3.1
  let path := if usesParams.contains s1.1 && s4.1.contains ';' then splitParamsPath s4.1 else s4.1
  ⟨s1.1, s2.1, path, s4.2, s3.2⟩

/-- The immutable per-crawl configuration derived from the seed URL
(`WaybackDownloader.__init__`): original domain, base path, output
directory and snapshot timestamp. -/
structure Config where
  domain : Chars
  basePath : Chars
  outputDir : Chars
  timestamp : Chars

/-- Embeds `WaybackDownloader._is_internal_url` (wayback_downloader.py,
lines 118-139): empty URLs are not internal; a URL starting with a
single `/` is internal; a `//`-prefixed URL gets `http:` prepended;
`#`, `mailto:`, `javascript:` and `tel:` URLs are not internal;
otherwise the URL is internal iff its parsed netloc equals the original
domain or is empty. (The `except (ValueError, AttributeError)` branch
is unreachable in the model because the modelled `urlparse` is total.) -/
def is_internal_url (cfg : Config) (url : Chars) : Bool :=
  if url = [] then false
  else if (('/' :: []) : Chars).isPrefixOf url && !((('/' :: '/' :: []) : Chars).isPrefixOf url) then true
  else
    let url2 := if (('/' :: '/' :: []) : Chars).isPrefixOf url then "http:".toList ++ url else url
    if ("#".toList).isPrefixOf url2 || ("mailto:".toList).isPrefixOf url2
        || ("javascript:".toList).isPrefixOf url2 || ("tel:".toList).isPrefixOf url2 then false
    else
      let p := urlparse url2
      (p.netloc == cfg.domain) || (p.netloc == [])

/-- Embeds `WaybackDownloader._is_within_base_path` (lines 141-167):
empty URL is out of scope; a root (empty) base path puts everything in
scope; otherwise the path is the URL itself for site-relative URLs, the
parsed path of `http:` + URL for protocol-relative URLs, and the parsed
path of the URL otherwise (rejecting a non-empty netloc different from
the original domain, modelled by `none`); finally the path with its
trailing slashes stripped must start with the base path (raw string
prefix, as in the source's `str.startswith`) or equal the base path
with its trailing slashes stripped. -/
def is_within_base_path (cfg : Config) (url : Chars) : Bool :=
  if url = [] then false
  else if cfg.basePath = [] ∨ cfg.basePath = ('/' :: []) then true
  else
    let pathOpt : Option Chars :=
      if (('/' :: []) : Chars).isPrefixOf url && !((('/' :: '/' :: []) : Chars).isPrefixOf url) then
        some url
      else if (('/' :: '/' :: []) : Chars).isPrefixOf url then
        some (urlparse ("http:".toList ++ url)).path
      else
        let p := urlparse url
        if p.netloc ≠ [] ∧ p.netloc ≠ cfg.domain then none else some p.path
    match pathOpt with
    | none => false
    | some path =>
      let path2 := rstripSlash path
      cfg.basePath.isPrefixOf path2 || (path2 == rstripSlash cfg.basePath)

/-- The image extensions tested by `_get_file_type`. -/
def imageExts : List Chars :=
  [".jpg", ".jpeg", ".png", ".gif", ".bmp", ".svg", ".webp", ".ico"].map String.toList

/-- The page extensions tested by `_get_file_type`. -/
def htmlExts : List Chars :=
  [".html", ".htm", ".php", ".asp", ".aspx"].map String.toList

/-- Models Python `url.lower()` (ASCII case folding; the claims only
involve ASCII URLs). -/
def lowerStr (u : Chars) : Chars := u.map Char.toLower

/-- Embeds `WaybackDownloader._get_file_type` (lines 169-200). Note the
source tests each extension as a suffix of the entire lowercased URL
(`url_lower.endswith(ext)`), not of its path component; only the no-dot
fallback inspects `Path(urlparse(url).path).name`. -/
def get_file_type (url : Chars) : Chars :=
  let ul := lowerStr url
  if imageExts.any (fun e => e.isSuffixOf ul) then "image".toList
  else if (".css".toList).isSuffixOf ul then "css".toList
  else if (".js".toList).isSuffixOf ul then "js".toList
  else if htmlExts.any (fun e => e.isSuffixOf ul) || !('.' ∈ posixName (urlparse url).path : Bool) then
    "html".toList
  else "other".toList

/-- The path/query part of `WaybackDownloader._url_to_filepath`
(lines 202-230), factored over the two `urlparse` fields the source
reads. Mirrors the source step by step: root path becomes
`/index.html`; a trailing slash appends `index.html`; a dot-less final
component appends `.html`; the leading slashes are stripped; a
non-empty query is folded into the filename with `?`, `&` and `=`
replaced by `_`. -/
def filepathFromParts (outDir path query : Chars) : Chars :=
  let p1 := if path = [] ∨ path = ('/' :: []) then "/index.html".toList else path
  let p2 := if endsSlash p1 then p1 ++ "index.html".toList else p1
  let p3 := if '.' ∈ posixName p2 then p2 else p2 ++ ".html".toList
  let p4 := lstripSlash p3
  let p5 := if query ≠ [] then mapReplace '?' '_' p4 ++ ('_' :: []) ++ mapReplace '=' '_' (mapReplace '&' '_' query) else p4
  outDir ++ ('/' :: []) ++ p5

/-- Embeds `WaybackDownloader._url_to_filepath` (lines 202-230): parse
the URL and apply `filepathFromParts` to its path and query. The
`self.output_dir / path` join is modelled as `outputDir ++ "/" ++ path`
(the processed path is always relative and non-empty). -/
def url_to_filepath (cfg : Config) (url : Chars) : Chars :=
  filepathFromParts cfg.outputDir (urlparse url).path (urlparse url).query

/-- The literal part of the rewrite-side archive-URL pattern
`web\.archive\.org/web/\d+/(.*)`. -/
def waybackLit : Chars := "web.archive.org/web/".toList

/-- Whether the pattern `web\.archive\.org/web/\d+/(.*)` matches at the
start of `s`, returning the group-1 capture. Backtracking note: `\d+/`
matches at a position iff the maximal digit run there is non-empty and
immediately followed by `/` (no shorter digit run can help, since the
run is followed by a non-slash character wherever it is cut), and the
greedy `(.*)` captures up to the end of the line, i.e. up to the first
newline or the end of the string. -/
def tryMatchAt (s : Chars) : Option Chars :=
  if waybackLit.isPrefixOf s then
    let t := s.drop waybackLit.length
    let ds := t.takeWhile Char.isDigit
    match t.dropWhile Char.isDigit with
    | '/' :: tail => if ds.isEmpty then none else some (tail.takeWhile (fun c => c != '\n'))
    | _ => none
  else none

/-- Models `re.search(r"web\.archive\.org/web/\d+/(.*)", s)` returning
the group-1 capture of the leftmost match: try `tryMatchAt` at every
position from the left. -/
def searchWayback : Chars → Option Chars
  | [] => none
  | c :: cs =>
    match tryMatchAt (c :: cs) with
    | some r => some r
    | none => searchWayback cs

/-- The `http` prefix fix applied after recovering an original URL from
an archive URL (lines 353-354 and 456-457): prepend `http://` unless
the string already starts with `http`. -/
def addHttpPrefix (r : Chars) : Chars :=
  if ("http".toList).isPrefixOf r then r else "http://".toList ++ r

/-- Embeds the archive-URL-to-original-URL recovery of
`_rewrite_urls_in_html` (lines 346-354): search for the archive
pattern and, on a match, return the capture with the `http` prefix fix;
`none` models a failed `re.search`. -/
def fromArchiveURL (u : Chars) : Option Chars :=
  (searchWayback u).map addHttpPrefix

/-- Embeds `WaybackDownloader._build_wayback_url` (lines 110-116):
relative URLs get `http://` + domain prepended, then the archive prefix
with the snapshot timestamp is attached. -/
def build_wayback_url (cfg : Config) (originalUrl : Chars) : Chars :=
  let u := if ("http".toList).isPrefixOf originalUrl then originalUrl
           else "http://".toList ++ cfg.domain ++ originalUrl
  "https://web.archive.org/web/".toList ++ cfg.timestamp ++ ('/' :: []) ++ u

/-- Embeds `WaybackDownloader._parse_wayback_url` (lines 84-108), which
anchors `re.match(r"https?://web\.archive\.org/web/(\d+)/(.*)", url)`
at the start: strip the `http(s)://web.archive.org/web/` prefix, read
the maximal digit run, require `/` right after it, capture the rest of
the line, apply the `http` prefix fix, and return
`(timestamp, domain, basePath)` where the domain is the parsed netloc
and the base path is the parsed path with trailing slashes stripped.
`none` models the `ValueError` raised on a failed match. -/
def parse_wayback_url (url : Chars) : Option (Chars × Chars × Chars) :=
  let stripped : Option Chars :=
    if ("https://web.archive.org/web/".toList).isPrefixOf url then
      some (url.drop ("https://web.archive.org/web/".toList).length)
    else if ("http://web.archive.org/web/".toList).isPrefixOf url then
      some (url.drop ("http://web.archive.org/web/".toList).length)
    else none
  match stripped with
  | none => none
  | some t =>
    let ds := t.takeWhile Char.isDigit
    match t.dropWhile Char.isDigit with
    | '/' :: tail =>
      if ds.isEmpty then none
      else
        let original := addHttpPrefix (tail.takeWhile (fun c => c != '\n'))
        let p := urlparse original
        some (ds, p.netloc, rstripSlash p.path)
    | _ => none

/-- Models Python's substring test `pat in s`, via Mathlib's decidable
infix relation on lists. -/
def containsStr (pat s : Chars) : Bool :=
  decide (pat <:+: s)

/-- Outcome of the retry loop in `_download_file` (lines 249-291):
`success i` models the loop breaking with the response of attempt `i`;
`rateLimited` models the `return None` after the 5th consecutive 429;
`httpError c` models `raise_for_status` raising for a status `c ≥ 400`
(caught by the outer handler, which logs and returns `None`). -/
inductive FetchOutcome where
  | success (attempt : Nat)
  | rateLimited
  | httpError (code : Nat)
deriving DecidableEq

/-- Embeds the retry loop of `_download_file` (lines 249-291) over an
oracle `st` giving the HTTP status of each attempt. Returns the
outcome, the number of `stats["retries"]` increments, and the list of
sleep durations in seconds (the source sleeps `2.0 * 2 ** attempt`
float seconds; the values 2, 4, 8, 16 are exactly representable, so
they are recorded as naturals). The fuel argument starts at 5
(`max_retries`) and the loop can never exhaust it, since the attempt
counter check `attempt < max_retries - 1` uses the literal 5 as in the
source. Transport exceptions whose text mentions 429 (lines 280-289)
follow the same retry path and are subsumed by the 429 status case. -/
def retryGo (st : Nat → Nat) : Nat → Nat → FetchOutcome × Nat × List Nat
  | 0, _ => (FetchOutcome.rateLimited, 0, [])
  | fuel + 1, attempt =>
    if st attempt = 429 then
      if attempt + 1 < 5 then
        let r := retryGo st fuel (attempt + 1)
        (r.1, r.2.1 + 1, (2 * 2 ^ attempt) :: r.2.2)
      else (FetchOutcome.rateLimited, 0, [])
    else if 400 ≤ st attempt then (FetchOutcome.httpError (st attempt), 0, [])
    else (FetchOutcome.success attempt, 0, [])

/-- The retry loop entered as `_download_file` enters it: 5 units of
fuel (`max_retries`), starting at attempt 0. -/
def download_fetch (st : Nat → Nat) : FetchOutcome × Nat × List Nat :=
  retryGo st 5 0

/-- Embeds the archive-URL cleaning applied to every discovered
reference (lines 343-354 and 452-457, which are identical): when the
string contains `web.archive.org/web/`, recover the original URL with
the rewrite-side pattern and the `http` prefix fix; when the pattern
search fails, the string is left as it was. -/
def cleanWaybackUrl (href : Chars) : Chars :=
  if containsStr ("web.archive.org/web/".toList) href then
    match searchWayback href with
    | some r => addHttpPrefix r
    | none => href
  else href

/-- Collaborators of the per-reference rewriting step of
`_rewrite_urls_in_html` (lines 333-388): `urljoin` is
`urllib.parse.urljoin` (base first), `relpath` is `os.path.relpath`
with `none` modelling the `(ValueError, OSError)` failure caught at
lines 375-376, `reachable` is `_check_url_reachable`. -/
structure RewriteEnv where
  urljoin : Chars → Chars → Chars
  relpath : Chars → Chars → Option Chars
  reachable : Chars → Bool

/-- What the rewriter does to one reference attribute: remove the tag,
set the attribute to a new value, or keep it unchanged. -/
inductive TagOutcome where
  | removed
  | attrSet (v : Chars)
  | kept
deriving DecidableEq

/-- The absolute URL the rewriter computes for a reference (line 357):
`urljoin(base_url, original_url)` after archive-URL cleaning. -/
def rewriteAbs (env : RewriteEnv) (baseUrl tagUrl : Chars) : Chars :=
  env.urljoin baseUrl (cleanWaybackUrl tagUrl)

/-- Embeds the processing of a single reference attribute in
`_rewrite_urls_in_html` (lines 333-388): archive-static references are
removed; internal in-scope references are rewritten to a relative local
path and recorded as discovered resources, unless the relative-path
computation fails, in which case the attribute and the resource list
are left untouched; internal out-of-scope references are kept;
external references that were archive-form are rewritten to the live
URL when reachable; everything else is kept. The second component is
this reference's contribution to the returned `resources` list. -/
def rewriteTag (env : RewriteEnv) (cfg : Config) (baseUrl tagUrl : Chars) : TagOutcome × List Chars :=
  if containsStr ("web.archive.org".toList) tagUrl && containsStr ("/static/".toList) tagUrl then
    (TagOutcome.removed, [])
  else
    let wasWayback := containsStr ("web.archive.org/web/".toList) tagUrl
    let absUrl := rewriteAbs env baseUrl tagUrl
    if is_internal_url cfg absUrl then
      if is_within_base_path cfg absUrl then
        match env.relpath (url_to_filepath cfg absUrl) (posixParent (url_to_filepath cfg baseUrl)) with
        | some rp => (TagOutcome.attrSet rp, [absUrl])
        | none => (TagOutcome.kept, [])
      else (TagOutcome.kept, [])
    else if wasWayback then
      if env.reachable absUrl then (TagOutcome.attrSet absUrl, []) else (TagOutcome.kept, [])
    else (TagOutcome.kept, [])

/-- Collaborators of the crawl loop: `fetchOk url` abstracts whether
the retry loop of `_download_file` eventually produces a response for
the URL (as opposed to returning `None`); `hrefs url` is the list of
`a.href` values BeautifulSoup finds in the fetched page (lines
447-449); `resources url` is the resource list `_rewrite_urls_in_html`
returns for the page (line 437); `urljoin` is `urllib.parse.urljoin`. -/
structure CrawlEnv where
  fetchOk : Chars → Bool
  hrefs : Chars → List Chars
  resources : Chars → List Chars
  urljoin : Chars → Chars → Chars

/-- The crawl state owned by the scheduler: the visited set (modelled
as a list with `∈` as membership), the FIFO pending queue, and a log of
the URLs for which a network fetch was initiated (each entry is one
entry into the retry loop of `_download_file`; the log is the model's
observation point, the source has no such variable). -/
structure CrawlState where
  visited : List Chars
  queue : List Chars
  fetchLog : List Chars

/-- Embeds the visited-set gate of `_download_file` (lines 242-247):
when the URL is already visited return `None` (modelled as `false`)
without touching the network; otherwise insert it into the visited set
and then perform the fetch, whose success is given by the environment. -/
def download_file (env : CrawlEnv) (s : CrawlState) (url : Chars) : CrawlState × Bool :=
  if url ∈ s.visited then (s, false)
  else ({ visited := url :: s.visited, queue := s.queue, fetchLog := url :: s.fetchLog },
        env.fetchOk url)

/-- Embeds the link-enqueue decision of `_crawl_page` (lines 462-469):
internal, in-scope, HTML-typed and unvisited links are appended to the
queue. -/
def enqueueLink (cfg : Config) (st : CrawlState) (u : Chars) : CrawlState :=
  if is_internal_url cfg u && is_within_base_path cfg u
      && (get_file_type u == "html".toList) && !(decide (u ∈ st.visited)) then
    { st with queue := st.queue ++ [u] }
  else st

/-- Embeds the resource-enqueue decision of `_crawl_page` (lines
471-477): unvisited non-HTML resources are appended to the queue. -/
def enqueueResource (st : CrawlState) (r : Chars) : CrawlState :=
  if !(decide (r ∈ st.visited)) && !(get_file_type r == "html".toList) then
    { st with queue := st.queue ++ [r] }
  else st

/-- Embeds `_crawl_page` (lines 399-480): download the URL through the
visited-set gate; on failure return; for HTML pages, clean each
discovered href with the archive pattern, resolve it against the page
URL and run the link-enqueue filter, then run the resource-enqueue
filter over the rewriter's resource list. File writing, statistics and
the politeness sleep have no effect on the crawl state and are not
modelled. -/
def crawl_page (env : CrawlEnv) (cfg : Config) (s : CrawlState) (url : Chars) : CrawlState :=
  let d := download_file env s url
  if d.2 then
    if get_file_type url == "html".toList then
      let s2 := ((env.hrefs url).map (fun h => env.urljoin url (cleanWaybackUrl h))).foldl (enqueueLink cfg) d.1
      (env.resources url).foldl enqueueResource s2
    else d.1
  else d.1

/-- Embeds the page-cap check of `download` (line 508):
`if self.max_pages and len(self.visited_urls) >= self.max_pages`.
Python truthiness of `int | None` makes the check fire only when
`max_pages` is neither `None` nor `0`. -/
def shouldStop (maxPages : Option Int) (visitedCount : Nat) : Bool :=
  match maxPages with
  | none => false
  | some m => (m != 0) && decide (m ≤ (visitedCount : Int))

/-- Embeds the scheduler loop of `download` (lines 506-515): while the
queue is non-empty, stop if the page cap fires, otherwise pop the front
URL and crawl it. The loop need not terminate for arbitrary
environments, so it is driven by fuel. -/
def crawlLoop (env : CrawlEnv) (cfg : Config) (maxPages : Option Int) : Nat → CrawlState → CrawlState
  | 0, s => s
  | fuel + 1, s =>
    match s.queue with
    | [] => s
    | url :: rest =>
      if shouldStop maxPages s.visited.length then s
      else crawlLoop env cfg maxPages fuel (crawl_page env cfg { s with queue := rest } url)

/-- Scope-path resolution as the spec describes it (section 4.1,
`isWithinBasePath`): resolve `//`-relative and bare-path forms as in
`isInternal`, and reject URLs carrying a host different from the
original domain. This definition follows the spec's words and is used
to state the claims about `is_within_base_path`. -/
def specScopePath (cfg : Config) (url : Chars) : Option Chars :=
  if (('/' :: '/' :: []) : Chars).isPrefixOf url then
    some (urlparse ("http:".toList ++ url)).path
  else if (('/' :: []) : Chars).isPrefixOf url then some url
  else if (urlparse url).netloc ≠ [] ∧ (urlparse url).netloc ≠ cfg.domain then none
  else some (urlparse url).path

/-- The base-path containment predicate exactly as claim C1 states it:
true iff the resolved path with its trailing slash stripped equals the
base path or starts with the base path followed immediately by `/`
(segment-boundary matching). Written from the claim's words, to be
compared against the source's `is_within_base_path`. -/
def specWithinBasePathSeg (cfg : Config) (url : Chars) : Bool :=
  if url = [] then false
  else if cfg.basePath = [] ∨ cfg.basePath = ('/' :: []) then true
  else
    match specScopePath cfg url with
    | none => false
    | some p =>
      decide (rstripSlash p = cfg.basePath)
        || (cfg.basePath ++ ('/' :: [])).isPrefixOf (rstripSlash p)

/-- The base-path containment predicate with the prefix test amended to
the raw string prefix the source actually performs: true iff the
resolved path with its trailing slash stripped starts with the base
path as a raw string prefix, or equals the base path with its trailing
slash stripped. Written from the amended claim's words. -/
def specWithinBasePathRaw (cfg : Config) (url : Chars) : Bool :=
  if url = [] then false
  else if cfg.basePath = [] ∨ cfg.basePath = ('/' :: []) then true
  else
    match specScopePath cfg url with
    | none => false
    | some p =>
      decide (cfg.basePath <+: rstripSlash p)
        || decide (rstripSlash p = rstripSlash cfg.basePath)

/-- The file-type classifier exactly as claim C7 states it: the
category is derived purely from the extension of the URL's path
component (case-insensitive), so queries and fragments cannot affect
it. Written from the claim's words, to be compared against the
source's `get_file_type`. -/
def specFileTypePathExt (url : Chars) : Chars :=
  let p := lowerStr (urlparse url).path
  if imageExts.any (fun e => e.isSuffixOf p) then "image".toList
  else if (".css".toList).isSuffixOf p then "css".toList
  else if (".js".toList).isSuffixOf p then "js".toList
  else if htmlExts.any (fun e => e.isSuffixOf p) || !('.' ∈ posixName (urlparse url).path : Bool) then
    "html".toList
  else "other".toList

/-- The extension table of the amended claim C7, in the order the
source tests the extensions. -/
def extTable : List (Chars × Chars) :=
  [(".jpg", "image"), (".jpeg", "image"), (".png", "image"), (".gif", "image"),
   (".bmp", "image"), (".svg", "image"), (".webp", "image"), (".ico", "image"),
   (".css", "css"), (".js", "js"),
   (".html", "html"), (".htm", "html"), (".php", "html"), (".asp", "html"),
   (".aspx", "html")].map (fun pr => (pr.1.toList, pr.2.toList))

/-- The file-type classifier as the amended claim C7 states it: match
the extensions as suffixes of the entire lowercased URL (first match in
table order wins), and when none matches fall back on `html` exactly
when the final segment of the URL's path has no dot, else `other`.
Written from the amended claim's words. -/
def specFileTypeAmended (url : Chars) : Chars :=
  match extTable.find? (fun pr => pr.1.isSuffixOf (lowerStr url)) with
  | some pr => pr.2
  | none => if '.' ∈ posixName (urlparse url).path then "other".toList else "html".toList

/-- The configuration of the concrete examples: seed
`https://web.archive.org/web/20150101000000/example.com`, i.e. domain
`example.com` with root base path. -/
def exCfg : Config :=
  ⟨"example.com".toList, [], "test_output".toList, "20150101000000".toList⟩

/-- The configuration with the non-root base path `/blog`, as from seed
`https://web.archive.org/web/20150101000000/example.com/blog`. -/
def blogCfg : Config :=
  ⟨"example.com".toList, "/blog".toList, "test_output".toList, "20150101000000".toList⟩

/-- The crawl-loop invariant behind the no-duplicate-fetch property:
the fetch log has no duplicates and every logged URL is in the visited
set. -/
def crawlInv (s : CrawlState) : Prop :=
  s.fetchLog.Nodup ∧ ∀ x ∈ s.fetchLog, x ∈ s.visited

theorem wb_splitSlash_ne_nil (p : Chars) : splitSlash p ≠ [] := by
  induction p with
  | nil => simp [splitSlash]
  | cons c t ih =>
    simp only [splitSlash]
    by_cases h : c = '/'
    · simp [h]
    · simp only [if_neg h]
      cases hr : splitSlash t with
      | nil => simp
      | cons a b => simp

theorem wb_splitSlash_append (a s : Chars) :
    splitSlash (a ++ '/' :: s) = splitSlash a ++ splitSlash s := by
  induction a with
  | nil => simp [splitSlash]
  | cons c t ih =>
    show splitSlash (c :: (t ++ '/' :: s)) = splitSlash (c :: t) ++ splitSlash s
    by_cases h : c = '/'
    · simp only [splitSlash, if_pos h, ih]
      simp
    · simp only [splitSlash, if_neg h]
      rw [ih]
      cases hr : splitSlash t with
      | nil => exact absurd hr (wb_splitSlash_ne_nil t)
      | cons x xs => simp

theorem wb_splitSlash_no_slash (s : Chars) (h : ∀ c ∈ s, c ≠ '/') : splitSlash s = [s] := by
  induction s with
  | nil => rfl
  | cons c t ih =>
    have hc : c ≠ '/' := h c (by simp)
    have ht := ih (fun x hx => h x (by simp [hx]))
    simp [splitSlash, hc, ht]

theorem wb_posixName_append_seg (a s : Chars) (hs1 : ∀ c ∈ s, c ≠ '/') (hs2 : s ≠ [])
    (hs3 : s ≠ ('.' :: [])) : posixName (a ++ '/' :: s) = s := by
  unfold posixName pathComponents
  rw [wb_splitSlash_append, wb_splitSlash_no_slash s hs1, List.filter_append]
  have hb : (!(s == ([] : Chars) || s == ('.' :: []))) = true := by
    have e1 : (s == ([] : Chars)) = false := beq_eq_false_iff_ne.mpr hs2
    have e2 : (s == ('.' :: [])) = false := beq_eq_false_iff_ne.mpr hs3
    rw [e1, e2]
    rfl
  have hkeep : (([s] : List Chars).filter (fun c => !(c == [] || c == ('.' :: [])))) = [s] := by
    simp only [List.filter, hb]
  rw [hkeep, List.getLast?_concat]
  rfl

theorem wb_lstrip_append (a : Chars) (c : Char) (bs : Chars) (hc : c ≠ '/') :
    lstripSlash (a ++ c :: bs) = lstripSlash a ++ c :: bs := by
  have hcf : (c == '/') = false := beq_eq_false_iff_ne.mpr hc
  induction a with
  | nil => simp [lstripSlash, List.dropWhile, hcf]
  | cons x t ih =>
    by_cases hx : x = '/'
    · have hxt : (x == '/') = true := beq_iff_eq.mpr hx
      simp only [lstripSlash, List.cons_append, List.dropWhile, hxt]
      simpa [lstripSlash] using ih
    · have hxf : (x == '/') = false := beq_eq_false_iff_ne.mpr hx
      simp [lstripSlash, List.dropWhile, hxf]

theorem wb_takeWhile_append (p : Char → Bool) (a b : Chars) (h : ∀ c ∈ a, p c = true) :
    (a ++ b).takeWhile p = a ++ b.takeWhile p := by
  induction a with
  | nil => simp
  | cons c t ih =>
    simp [List.takeWhile, h c (by simp), ih (fun x hx => h x (by simp [hx]))]

theorem wb_dropWhile_append (p : Char → Bool) (a b : Chars) (h : ∀ c ∈ a, p c = true) :
    (a ++ b).dropWhile p = b.dropWhile p := by
  induction a with
  | nil => simp
  | cons c t ih =>
    simp [List.dropWhile, h c (by simp), ih (fun x hx => h x (by simp [hx]))]

theorem wb_isPrefixOf_append (l t : Chars) : l.isPrefixOf (l ++ t) = true := by
  induction l with
  | nil => simp [List.isPrefixOf]
  | cons c cs ih => simp [List.isPrefixOf, ih]

theorem wb_tryMatchAt_head_ne (c : Char) (hc : c ≠ 'w') (cs : Chars) :
    tryMatchAt (c :: cs) = none := by
  have h1 : ((('w' : Char)) == c) = false := beq_eq_false_iff_ne.mpr (fun h => hc h.symm)
  have h2 : waybackLit.isPrefixOf (c :: cs) = false := by
    have hw : waybackLit = 'w' :: "eb.archive.org/web/".toList := rfl
    rw [hw]
    simp [List.isPrefixOf, h1]
  simp [tryMatchAt, h2]

theorem wb_searchWayback_skip (pre s : Chars) (h : ∀ c ∈ pre, c ≠ 'w') :
    searchWayback (pre ++ s) = searchWayback s := by
  induction pre with
  | nil => rfl
  | cons c t ih =>
    have hc := h c (by simp)
    have ht := ih (fun x hx => h x (by simp [hx]))
    simp [searchWayback, wb_tryMatchAt_head_ne c hc, ht]

theorem wb_tryMatchAt_lit (ts u : Chars) (h1 : ts ≠ []) (h2 : ∀ c ∈ ts, c.isDigit = true)
    (h3 : ∀ c ∈ u, c ≠ '\n') :
    tryMatchAt (waybackLit ++ (ts ++ '/' :: u)) = some u := by
  have hpre := wb_isPrefixOf_append waybackLit (ts ++ '/' :: u)
  have htake := wb_takeWhile_append Char.isDigit ts ('/' :: u) h2
  have hdrop := wb_dropWhile_append Char.isDigit ts ('/' :: u) h2
  have hslash : List.takeWhile Char.isDigit ('/' :: u) = [] := rfl
  have hdslash : List.dropWhile Char.isDigit ('/' :: u) = '/' :: u := rfl
  have hemp : (ts ++ ([] : Chars)).isEmpty = false := by
    cases ts with
    | nil => exact absurd rfl h1
    | cons x xs => rfl
  have hcap : List.takeWhile (fun c => c != '\n') u = u :=
    List.takeWhile_eq_self_iff.mpr (fun x hx => by simpa using h3 x hx)
  simp [tryMatchAt, hpre, List.drop_left, htake, hdrop, hslash, hdslash, hemp, hcap, h1]

theorem wb_searchWayback_cons_some (c : Char) (cs r : Chars)
    (h : tryMatchAt (c :: cs) = some r) : searchWayback (c :: cs) = some r := by
  simp [searchWayback, h]

theorem wb_searchWayback_lit (ts u : Chars) (h1 : ts ≠ []) (h2 : ∀ c ∈ ts, c.isDigit = true)
    (h3 : ∀ c ∈ u, c ≠ '\n') :
    searchWayback (waybackLit ++ (ts ++ '/' :: u)) = some u := by
  have hc : waybackLit ++ (ts ++ '/' :: u)
      = 'w' :: ("eb.archive.org/web/".toList ++ (ts ++ '/' :: u)) := rfl
  rw [hc]
  apply wb_searchWayback_cons_some
  rw [← hc]
  exact wb_tryMatchAt_lit ts u h1 h2 h3

theorem wb_isPrefixOf_eq_decide (a b : Chars) : a.isPrefixOf b = decide (a <+: b) := by
  by_cases h : a <+: b
  · simp [h, List.isPrefixOf_iff_prefix.mpr h]
  · have hf : a.isPrefixOf b = false :=
      Bool.eq_false_iff.mpr (fun hc => h (List.isPrefixOf_iff_prefix.mp hc))
    simp [h, hf]

theorem wb_beq_eq_decide (a b : Chars) : (a == b) = decide (a = b) := by
  by_cases h : a = b
  · simp [h]
  · simp [h, beq_eq_false_iff_ne.mpr h]

/-- C10: at the public interface, a maximum-page-count setting of 0 is
treated the same as no limit: the page-cap check never fires for
`max_pages = 0` (Python truthiness of `0` skips the check), so the
crawl loop behaves identically to the unlimited crawl instead of
stopping before the first fetch. -/
theorem c10_max_pages_zero_is_unlimited :
    (∀ v : Nat, shouldStop (some 0) v = shouldStop none v) ∧
    (∀ (env : CrawlEnv) (cfg : Config) (fuel : Nat) (s : CrawlState),
      crawlLoop env cfg (some 0) fuel s = crawlLoop env cfg none fuel s) := by
  constructor
  · intro v
    simp [shouldStop]
  · intro env cfg fuel
    induction fuel with
    | zero => intro s; rfl
    | succ n ih =>
      intro s
      cases hq : s.queue with
      | nil => simp [crawlLoop, hq]
      | cons url rest => simp [crawlLoop, hq, shouldStop, ih]

/-- C2 (code evaluated at the failing input): the seed parser rejects a
timestamp carrying the content marker `cs_` (its regex demands `/`
right after the digits), modelling the `ValueError` the constructor
raises on `https://web.archive.org/web/20210414192058cs_/https://example.com/style.css`;
and the rewrite-side recovery likewise fails to match
`https://web.archive.org/web/20150101000000cs_/https://example.com/style.css`,
so the marker is not stripped and no original URL is recovered —
contradicting the claim (and the repository's own
`TestWaybackURLSuffixes` tests). -/
theorem c2_content_marker_rejected :
    parse_wayback_url ("https://web.archive.org/web/20210414192058cs_/https://example.com/style.css".toList) = none ∧
    fromArchiveURL ("https://web.archive.org/web/20150101000000cs_/https://example.com/style.css".toList) = none := by
  exact ⟨by decide, by decide⟩

/-- C1 counterexample: with base path `/blog`, the source's raw
`str.startswith` prefix test accepts `/blogger`, while the claim's
segment-boundary predicate (equal to `/blog` or starting with
`/blog/`) rejects it. -/
theorem c1_counterexample :
    is_within_base_path blogCfg ("/blogger".toList) = true ∧
    specWithinBasePathSeg blogCfg ("/blogger".toList) = false := by
  exact ⟨by decide, by decide⟩

/-- C1 (amended): for every URL and configuration,
`is_within_base_path` agrees with the predicate that resolves the URL
to a path as the spec describes and then performs a raw string prefix
comparison (trailing slash stripped) against the base path — so with
base path `/blog` it accepts `/blog`, `/blog/`, `/blog/post`,
`/blog/2021/x` and also `/blogger`, and rejects `/about` and URLs on a
different host. -/
theorem c1_amended_raw_prefix_scope :
    (∀ (cfg : Config) (url : Chars),
      is_within_base_path cfg url = specWithinBasePathRaw cfg url) ∧
    is_within_base_path blogCfg ("/blog".toList) = true ∧
    is_within_base_path blogCfg ("/blog/".toList) = true ∧
    is_within_base_path blogCfg ("/blog/post".toList) = true ∧
    is_within_base_path blogCfg ("/blog/2021/x".toList) = true ∧
    is_within_base_path blogCfg ("/blogger".toList) = true ∧
    is_within_base_path blogCfg ("/about".toList) = false ∧
    is_within_base_path blogCfg ("http://other.com/blog/post.html".toList) = false := by
  refine ⟨?_, by decide, by decide, by decide, by decide, by decide, by decide, by decide⟩
  intro cfg url
  unfold is_within_base_path specWithinBasePathRaw specScopePath
  by_cases h0 : url = []
  · simp [h0]
  · simp only [if_neg h0]
    by_cases hbp : cfg.basePath = [] ∨ cfg.basePath = ('/' :: [])
    · simp [hbp]
    · simp only [if_neg hbp]
      by_cases h2 : (('/' :: '/' :: []) : Chars).isPrefixOf url = true
      · simp [h2, ← wb_isPrefixOf_eq_decide, ← wb_beq_eq_decide]
      · by_cases h3 : (('/' :: []) : Chars).isPrefixOf url = true
        · simp [h2, h3, ← wb_isPrefixOf_eq_decide, ← wb_beq_eq_decide]
        · simp [h2, h3, ← wb_isPrefixOf_eq_decide, ← wb_beq_eq_decide]

theorem wb_isSuffixOf_eq_decide (a b : Chars) : a.isSuffixOf b = decide (a <:+ b) := by
  by_cases h : a <:+ b
  · simp [h, List.isSuffixOf_iff_suffix.mpr h]
  · have hf : a.isSuffixOf b = false :=
      Bool.eq_false_iff.mpr (fun hc => h (List.isSuffixOf_iff_suffix.mp hc))
    simp [h, hf]

/-- C7 counterexample: the source classifies
`http://example.com/style.css?v=2` as `other` because it suffix-matches
extensions against the whole URL (the query defeats the `.css` match
and the path's final segment has a dot), while the claim's
path-extension classifier yields `css`. -/
theorem c7_counterexample :
    get_file_type ("http://example.com/style.css?v=2".toList) = "other".toList ∧
    specFileTypePathExt ("http://example.com/style.css?v=2".toList) = "css".toList := by
  exact ⟨by decide, by decide⟩

/-- C7 (amended): for every URL, `get_file_type` agrees with the
classifier that matches the image/css/js/html extensions as suffixes of
the entire lowercased URL (first match in table order), falling back on
`html` exactly when the final segment of the URL's path has no dot and
on `other` otherwise — so a query string or fragment after the file
name does affect the category. -/
theorem c7_amended_whole_url_suffix :
    ∀ url : Chars, get_file_type url = specFileTypeAmended url := by
  intro url
  unfold get_file_type specFileTypeAmended extTable imageExts htmlExts
  simp only [List.map_cons, List.map_nil, List.any_cons, List.any_nil, List.find?]
  by_cases h1 : (['.', 'j', 'p', 'g'] : Chars) <:+ lowerStr url
  · simp [wb_isSuffixOf_eq_decide, h1]
  by_cases h2 : (['.', 'j', 'p', 'e', 'g'] : Chars) <:+ lowerStr url
  · simp [wb_isSuffixOf_eq_decide, h1, h2]
  by_cases h3 : (['.', 'p', 'n', 'g'] : Chars) <:+ lowerStr url
  · simp [wb_isSuffixOf_eq_decide, h1, h2, h3]
  by_cases h4 : (['.', 'g', 'i', 'f'] : Chars) <:+ lowerStr url
  · simp [wb_isSuffixOf_eq_decide, h1, h2, h3, h4]
  by_cases h5 : (['.', 'b', 'm', 'p'] : Chars) <:+ lowerStr url
  · simp [wb_isSuffixOf_eq_decide, h1, h2, h3, h4, h5]
  by_cases h6 : (['.', 's', 'v', 'g'] : Chars) <:+ lowerStr url
  · simp [wb_isSuffixOf_eq_decide, h1, h2, h3, h4, h5, h6]
  by_cases h7 : (['.', 'w', 'e', 'b', 'p'] : Chars) <:+ lowerStr url
  · simp [wb_isSuffixOf_eq_decide, h1, h2, h3, h4, h5, h6, h7]
  by_cases h8 : (['.', 'i', 'c', 'o'] : Chars) <:+ lowerStr url
  · simp [wb_isSuffixOf_eq_decide, h1, h2, h3, h4, h5, h6, h7, h8]
  by_cases h9 : (['.', 'c', 's', 's'] : Chars) <:+ lowerStr url
  · simp [wb_isSuffixOf_eq_decide, h1, h2, h3, h4, h5, h6, h7, h8, h9]
  by_cases h10 : (['.', 'j', 's'] : Chars) <:+ lowerStr url
  · simp [wb_isSuffixOf_eq_decide, h1, h2, h3, h4, h5, h6, h7, h8, h9, h10]
  by_cases h11 : (['.', 'h', 't', 'm', 'l'] : Chars) <:+ lowerStr url
  · simp [wb_isSuffixOf_eq_decide, h1, h2, h3, h4, h5, h6, h7, h8, h9, h10, h11]
  by_cases h12 : (['.', 'h', 't', 'm'] : Chars) <:+ lowerStr url
  · simp [wb_isSuffixOf_eq_decide, h1, h2, h3, h4, h5, h6, h7, h8, h9, h10, h11, h12]
  by_cases h13 : (['.', 'p', 'h', 'p'] : Chars) <:+ lowerStr url
  · simp [wb_isSuffixOf_eq_decide, h1, h2, h3, h4, h5, h6, h7, h8, h9, h10, h11, h12, h13]
  by_cases h14 : (['.', 'a', 's', 'p'] : Chars) <:+ lowerStr url
  · simp [wb_isSuffixOf_eq_decide, h1, h2, h3, h4, h5, h6, h7, h8, h9, h10, h11, h12, h13, h14]
  by_cases h15 : (['.', 'a', 's', 'p', 'x'] : Chars) <:+ lowerStr url
  · simp [wb_isSuffixOf_eq_decide, h1, h2, h3, h4, h5, h6, h7, h8, h9, h10, h11, h12, h13, h14, h15]
  by_cases hd : '.' ∈ posixName (urlparse url).path
  · simp [wb_isSuffixOf_eq_decide, h1, h2, h3, h4, h5, h6, h7, h8, h9, h10, h11, h12, h13, h14, h15, hd]
  · simp [wb_isSuffixOf_eq_decide, h1, h2, h3, h4, h5, h6, h7, h8, h9, h10, h11, h12, h13, h14, h15, hd]

/-- C6: translating an absolute `http` original URL to its archive form
and back is the identity: `_build_wayback_url` attaches the archive
prefix without touching the URL (it already starts with `http`), and
the rewrite-side pattern recovers exactly the original URL. The
timestamp is the digit string extracted at construction, and URLs
contain no newline (the pattern's `.` stops at a newline). -/
theorem c6_archive_roundtrip (cfg : Config) (u : Chars)
    (hts1 : cfg.timestamp ≠ []) (hts2 : ∀ c ∈ cfg.timestamp, c.isDigit = true)
    (hu : ("http://".toList).isPrefixOf u = true) (hnl : ∀ c ∈ u, c ≠ '\n') :
    fromArchiveURL (build_wayback_url cfg u) = some u := by
  have hhttp : ("http".toList).isPrefixOf u = true := by
    have h1 : ("http".toList : Chars) <+: ("http://".toList : Chars) := by decide
    have h2 := List.isPrefixOf_iff_prefix.mp hu
    exact List.isPrefixOf_iff_prefix.mpr (h1.trans h2)
  have hsplit : ("https://web.archive.org/web/".toList : Chars)
      = "https://".toList ++ waybackLit := by decide
  have harch : build_wayback_url cfg u
      = "https://".toList ++ (waybackLit ++ (cfg.timestamp ++ '/' :: u)) := by
    unfold build_wayback_url
    rw [hhttp, if_pos rfl, hsplit]
    simp [List.append_assoc]
  rw [harch]
  unfold fromArchiveURL
  rw [wb_searchWayback_skip ("https://".toList) _ (by decide),
      wb_searchWayback_lit cfg.timestamp u hts1 hts2 hnl]
  have hp : ((['h', 't', 't', 'p'] : Chars)) <+: u := List.isPrefixOf_iff_prefix.mp hhttp
  simp [addHttpPrefix, hp]

/-- C6 witness: the round trip evaluated on a concrete URL against the
example configuration. -/
theorem c6_archive_roundtrip_witness :
    fromArchiveURL (build_wayback_url exCfg ("http://example.com/page.html".toList))
      = some ("http://example.com/page.html".toList) :=
  c6_archive_roundtrip exCfg ("http://example.com/page.html".toList)
    (by decide) (by decide) (by decide) (by decide)

/-- C4: a run of N-1 rate-limited responses followed by a 200 on the
Nth attempt (N at most 5) makes the retry loop succeed with the Nth
response, incrementing the retry counter by exactly N-1 and sleeping
`2 * 2 ^ attempt` seconds between attempts (2s, 4s, 8s, 16s); five
consecutive 429 responses make the loop abandon the URL with the
`rateLimited` outcome (the source's `return None`) rather than the
raising outcome `httpError`. -/
theorem c4_backoff_behaviour :
    (∀ (st : Nat → Nat) (N : Nat), 0 < N → N ≤ 5 →
      (∀ i, i < N - 1 → st i = 429) → st (N - 1) = 200 →
      download_fetch st = (FetchOutcome.success (N - 1), N - 1,
        (List.range (N - 1)).map (fun i => 2 * 2 ^ i))) ∧
    (∀ st : Nat → Nat, (∀ i, i < 5 → st i = 429) →
      download_fetch st = (FetchOutcome.rateLimited, 4, [2, 4, 8, 16])) := by
  constructor
  · intro st N hN1 hN5 h429 h200
    interval_cases N
    · simp only [Nat.sub_self] at h200
      simp [download_fetch, retryGo, h200, List.range_zero]
    · have e0 := h429 0 (by norm_num)
      have e1 : st 1 = 200 := h200
      simp [download_fetch, retryGo, e0, e1, List.range_succ]
    · have e0 := h429 0 (by norm_num)
      have e1 := h429 1 (by norm_num)
      have e2 : st 2 = 200 := h200
      simp [download_fetch, retryGo, e0, e1, e2, List.range_succ]
    · have e0 := h429 0 (by norm_num)
      have e1 := h429 1 (by norm_num)
      have e2 := h429 2 (by norm_num)
      have e3 : st 3 = 200 := h200
      simp [download_fetch, retryGo, e0, e1, e2, e3, List.range_succ]
    · have e0 := h429 0 (by norm_num)
      have e1 := h429 1 (by norm_num)
      have e2 := h429 2 (by norm_num)
      have e3 := h429 3 (by norm_num)
      have e4 : st 4 = 200 := h200
      simp [download_fetch, retryGo, e0, e1, e2, e3, e4, List.range_succ]
  · intro st h
    have e0 := h 0 (by norm_num)
    have e1 := h 1 (by norm_num)
    have e2 := h 2 (by norm_num)
    have e3 := h 3 (by norm_num)
    have e4 := h 4 (by norm_num)
    simp [download_fetch, retryGo, e0, e1, e2, e3, e4]

/-- C4 witness: two 429 responses then a 200 on the third attempt
yield success at attempt 2 with 2 retries and sleeps of 2s and 4s. -/
theorem c4_backoff_witness :
    download_fetch (fun i => if i < 2 then 429 else 200)
      = (FetchOutcome.success 2, 2, [2, 4]) := by
  have h := c4_backoff_behaviour.1 (fun i => if i < 2 then 429 else 200) 3
    (by norm_num) (by norm_num)
    (fun i hi => by simp only []; rw [if_pos]; omega)
    (by norm_num)
  simpa [List.range_succ] using h

/-- C8: `is_internal_url` returns false for empty input; true for every
URL starting with a single `/`; treats a `//`-prefixed URL exactly as
`http:` plus that URL (so protocol-relative references resolve through
the same netloc comparison, making same-host ones internal and
other-host ones not, as the bundled concrete cases show); returns false
for `#`, `mailto:`, `javascript:` and `tel:` URLs; and otherwise
returns true iff the parsed netloc equals the original domain or is
empty. -/
theorem c8_is_internal_classification :
    (∀ cfg : Config, is_internal_url cfg [] = false) ∧
    (∀ (cfg : Config) (rest : Chars), rest.head? ≠ some '/' →
      is_internal_url cfg ('/' :: rest) = true) ∧
    (∀ (cfg : Config) (rest : Chars),
      is_internal_url cfg ('/' :: '/' :: rest) = is_internal_url cfg ("http://".toList ++ rest)) ∧
    (∀ (cfg : Config) (rest : Chars), is_internal_url cfg ('#' :: rest) = false) ∧
    (∀ (cfg : Config) (rest : Chars),
      is_internal_url cfg ("mailto:".toList ++ rest) = false ∧
      is_internal_url cfg ("javascript:".toList ++ rest) = false ∧
      is_internal_url cfg ("tel:".toList ++ rest) = false) ∧
    (∀ (cfg : Config) (url : Chars), url ≠ [] →
      (('/' :: []) : Chars).isPrefixOf url = false →
      ("#".toList).isPrefixOf url = false →
      ("mailto:".toList).isPrefixOf url = false →
      ("javascript:".toList).isPrefixOf url = false →
      ("tel:".toList).isPrefixOf url = false →
      is_internal_url cfg url
        = (((urlparse url).netloc == cfg.domain) || ((urlparse url).netloc == []))) ∧
    is_internal_url exCfg ("//example.com/page.html".toList) = true ∧
    is_internal_url exCfg ("//other.com/page.html".toList) = false := by
  refine ⟨?_, ?_, ?_, ?_, ?_, ?_, by decide, by decide⟩
  · intro cfg
    simp [is_internal_url]
  · intro cfg rest h
    cases rest with
    | nil => simp [is_internal_url, List.isPrefixOf]
    | cons c cs =>
      have hc : c ≠ '/' := fun he => h (by simp [he])
      have hcf : (('/' : Char) == c) = false := beq_eq_false_iff_ne.mpr (fun he => hc he.symm)
      simp [is_internal_url, List.isPrefixOf, hcf]
  · intro cfg rest
    simp [is_internal_url, List.isPrefixOf]
  · intro cfg rest
    simp [is_internal_url, List.isPrefixOf]
  · intro cfg rest
    refine ⟨?_, ?_, ?_⟩ <;> simp [is_internal_url, List.isPrefixOf]
  · intro cfg url h0 hslash hhash hmail hjs htel
    have hss : (('/' :: '/' :: []) : Chars).isPrefixOf url = false := by
      cases url with
      | nil => rfl
      | cons c cs =>
        by_cases hc : (('/' : Char) == c) = true
        · exfalso
          have : (('/' :: []) : Chars).isPrefixOf (c :: cs) = true := by
            simp [List.isPrefixOf, hc]
          rw [this] at hslash
          exact Bool.true_eq_false.mp hslash
        · have hcf : (('/' : Char) == c) = false := Bool.eq_false_iff.mpr hc
          simp [List.isPrefixOf, hcf]
    have phash : ¬(("#".toList : Chars) <+: url) := by
      rw [← List.isPrefixOf_iff_prefix, hhash]
      simp
    have pmail : ¬(("mailto:".toList : Chars) <+: url) := by
      rw [← List.isPrefixOf_iff_prefix, hmail]
      simp
    have pjs : ¬(("javascript:".toList : Chars) <+: url) := by
      rw [← List.isPrefixOf_iff_prefix, hjs]
      simp
    have ptel : ¬(("tel:".toList : Chars) <+: url) := by
      rw [← List.isPrefixOf_iff_prefix, htel]
      simp
    simp only [String.toList] at phash pmail pjs ptel
    simp [is_internal_url, h0, hslash, hss, phash, pmail, pjs, ptel]

/-- C8 witness: the classification applied to a concrete site-relative
URL and a concrete other-host URL. -/
theorem c8_is_internal_witness :
    is_internal_url exCfg ("/page.html".toList) = true ∧
    is_internal_url exCfg ("http://other.com/page.html".toList) = false := by
  constructor
  · exact c8_is_internal_classification.2.1 exCfg ("page.html".toList) (by decide)
  · have h := c8_is_internal_classification.2.2.2.2.2.1 exCfg
      ("http://other.com/page.html".toList)
      (by decide) (by decide) (by decide) (by decide) (by decide) (by decide)
    rw [h]
    decide

theorem wb_endsSlash_ne_nil (p : Chars) (h : endsSlash p = true) : p ≠ [] := by
  intro he
  rw [he] at h
  exact Bool.false_ne_true h

theorem wb_endsSlash_decomp (p : Chars) (h : endsSlash p = true) :
    ∃ q, p = q ++ ('/' :: []) := by
  unfold endsSlash at h
  cases hg : p.getLast? with
  | none => rw [hg] at h; exact absurd h Bool.false_ne_true
  | some c =>
    rw [hg] at h
    have hc : c = '/' := by simpa using h
    rcases List.getLast?_eq_some_iff.mp hg with ⟨q, hq⟩
    exact ⟨q, by rw [hq, hc]⟩

theorem wb_fromParts_query_ne (d p q : Chars) (hq : q ≠ []) :
    filepathFromParts d p q ≠ filepathFromParts d p [] := by
  intro heq
  have hlen := congrArg List.length heq
  unfold filepathFromParts at hlen
  simp [hq, mapReplace] at hlen

theorem wb_fromParts_root (d : Chars) :
    filepathFromParts d [] [] = d ++ "/index.html".toList ∧
    filepathFromParts d ('/' :: []) [] = d ++ "/index.html".toList := by
  constructor <;>
    simp [filepathFromParts, endsSlash, posixName, pathComponents, splitSlash, lstripSlash]

theorem wb_fromParts_trailing (d p : Chars) (hes : endsSlash p = true)
    (hne : p ≠ ('/' :: [])) :
    filepathFromParts d p [] = d ++ ('/' :: []) ++ lstripSlash p ++ "index.html".toList := by
  rcases wb_endsSlash_decomp p hes with ⟨q, rfl⟩
  have h0 : q ++ ('/' :: []) ≠ ([] : Chars) := by simp
  have hpn : posixName ((q ++ ('/' :: [])) ++ "index.html".toList) = "index.html".toList := by
    have hassoc : (q ++ ('/' :: [])) ++ "index.html".toList
        = q ++ '/' :: ("index.html".toList) := by simp
    rw [hassoc]
    exact wb_posixName_append_seg q ("index.html".toList) (by decide) (by decide) (by decide)
  have hdot : '.' ∈ posixName ((q ++ ('/' :: [])) ++ "index.html".toList) := by
    rw [hpn]
    decide
  have hl : lstripSlash ((q ++ ('/' :: [])) ++ "index.html".toList)
      = lstripSlash (q ++ ('/' :: [])) ++ "index.html".toList :=
    wb_lstrip_append (q ++ ('/' :: [])) 'i' ("ndex.html".toList) (by decide)
  simp only [filepathFromParts]
  rw [if_neg (not_or.mpr ⟨h0, hne⟩)]
  rw [if_pos hes]
  rw [if_pos hdot]
  rw [if_neg (show ¬(([] : Chars) ≠ []) from by simp)]
  rw [hl]
  simp [List.append_assoc]

theorem wb_fromParts_noext (d p : Chars) (h0 : p ≠ []) (hes : endsSlash p = false)
    (hd : ¬('.' ∈ posixName p)) :
    filepathFromParts d p [] = d ++ ('/' :: []) ++ lstripSlash p ++ ".html".toList := by
  have hne2 : p ≠ ('/' :: []) := by
    intro he
    rw [he] at hes
    exact Bool.true_eq_false.mp hes
  have hl : lstripSlash (p ++ ".html".toList) = lstripSlash p ++ ".html".toList :=
    wb_lstrip_append p '.' ("html".toList) (by decide)
  simp only [filepathFromParts]
  rw [if_neg (not_or.mpr ⟨h0, hne2⟩)]
  rw [if_neg (show ¬(endsSlash p = true) from by simp [hes])]
  rw [if_neg hd]
  rw [if_neg (show ¬(([] : Chars) ≠ []) from by simp)]
  rw [hl]
  simp [List.append_assoc]

/-- C5: `_url_to_filepath` is deterministic — it depends only on the
parsed path and query, so the same absolute URL (and any URL with the
same path and query) always yields the same local path; a URL with
empty or `/` path maps to `index.html`; a path ending in `/` maps to
`<path>/index.html`; a path whose final segment has no dot maps to
`<path>.html`; and a URL carrying a non-empty query string maps to a
path distinct from that of the same URL without the query. -/
theorem c5_filepath_properties :
    (∀ (cfg : Config) (u v : Chars),
      (urlparse u).path = (urlparse v).path → (urlparse u).query = (urlparse v).query →
      url_to_filepath cfg u = url_to_filepath cfg v) ∧
    (∀ (cfg : Config) (u : Chars),
      ((urlparse u).path = [] ∨ (urlparse u).path = ('/' :: [])) →
      (urlparse u).query = [] →
      url_to_filepath cfg u = cfg.outputDir ++ "/index.html".toList) ∧
    (∀ (cfg : Config) (u : Chars),
      endsSlash (urlparse u).path = true → (urlparse u).path ≠ ('/' :: []) →
      (urlparse u).query = [] →
      url_to_filepath cfg u
        = cfg.outputDir ++ ('/' :: []) ++ lstripSlash (urlparse u).path ++ "index.html".toList) ∧
    (∀ (cfg : Config) (u : Chars),
      (urlparse u).path ≠ [] → endsSlash (urlparse u).path = false →
      ¬('.' ∈ posixName (urlparse u).path) → (urlparse u).query = [] →
      url_to_filepath cfg u
        = cfg.outputDir ++ ('/' :: []) ++ lstripSlash (urlparse u).path ++ ".html".toList) ∧
    (∀ (cfg : Config) (u v : Chars),
      (urlparse u).path = (urlparse v).path →
      (urlparse u).query ≠ [] → (urlparse v).query = [] →
      url_to_filepath cfg u ≠ url_to_filepath cfg v) := by
  refine ⟨?_, ?_, ?_, ?_, ?_⟩
  · intro cfg u v hp hq
    unfold url_to_filepath
    rw [hp, hq]
  · intro cfg u hp hq
    unfold url_to_filepath
    rcases hp with hp | hp <;> rw [hp, hq]
    · exact (wb_fromParts_root cfg.outputDir).1
    · exact (wb_fromParts_root cfg.outputDir).2
  · intro cfg u hes hne hq
    unfold url_to_filepath
    rw [hq]
    exact wb_fromParts_trailing cfg.outputDir _ hes hne
  · intro cfg u h0 hes hd hq
    unfold url_to_filepath
    rw [hq]
    exact wb_fromParts_noext cfg.outputDir _ h0 hes hd
  · intro cfg u v hp hqu hqv
    unfold url_to_filepath
    rw [hp, hqv]
    exact wb_fromParts_query_ne cfg.outputDir _ _ hqu

/-- C5 witness: the extensionless page `/about` lands at
`test_output/about.html`, and adding a query string to `/page` moves it
to a distinct file. -/
theorem c5_filepath_witness :
    url_to_filepath exCfg ("http://example.com/about".toList)
      = "test_output/about.html".toList ∧
    url_to_filepath exCfg ("http://example.com/page?id=1".toList)
      ≠ url_to_filepath exCfg ("http://example.com/page".toList) := by
  constructor
  · have h := c5_filepath_properties.2.2.2.1 exCfg ("http://example.com/about".toList)
      (by decide) (by decide) (by decide) (by decide)
    rw [h]
    decide
  · exact c5_filepath_properties.2.2.2.2 exCfg
      ("http://example.com/page?id=1".toList) ("http://example.com/page".toList)
      (by decide) (by decide) (by decide)

theorem wb_enqueueLink_foldl_fields (cfg : Config) (l : List Chars) (st : CrawlState) :
    (l.foldl (enqueueLink cfg) st).visited = st.visited ∧
    (l.foldl (enqueueLink cfg) st).fetchLog = st.fetchLog := by
  induction l generalizing st with
  | nil => exact ⟨rfl, rfl⟩
  | cons x xs ih =>
    rw [List.foldl_cons]
    have hstep : (enqueueLink cfg st x).visited = st.visited ∧
        (enqueueLink cfg st x).fetchLog = st.fetchLog := by
      unfold enqueueLink
      split
      · exact ⟨rfl, rfl⟩
      · exact ⟨rfl, rfl⟩
    have hih := ih (enqueueLink cfg st x)
    exact ⟨hih.1.trans hstep.1, hih.2.trans hstep.2⟩

theorem wb_enqueueResource_foldl_fields (l : List Chars) (st : CrawlState) :
    (l.foldl enqueueResource st).visited = st.visited ∧
    (l.foldl enqueueResource st).fetchLog = st.fetchLog := by
  induction l generalizing st with
  | nil => exact ⟨rfl, rfl⟩
  | cons x xs ih =>
    rw [List.foldl_cons]
    have hstep : (enqueueResource st x).visited = st.visited ∧
        (enqueueResource st x).fetchLog = st.fetchLog := by
      unfold enqueueResource
      split
      · exact ⟨rfl, rfl⟩
      · exact ⟨rfl, rfl⟩
    have hih := ih (enqueueResource st x)
    exact ⟨hih.1.trans hstep.1, hih.2.trans hstep.2⟩

theorem wb_crawlInv_of_eq (s t : CrawlState) (hv : s.visited = t.visited)
    (hf : s.fetchLog = t.fetchLog) (h : crawlInv t) : crawlInv s := by
  unfold crawlInv at h ⊢
  rw [hv, hf]
  exact h

theorem wb_download_file_inv (env : CrawlEnv) (s : CrawlState) (url : Chars)
    (h : crawlInv s) : crawlInv (download_file env s url).1 := by
  unfold download_file
  split
  · exact h
  · rename_i hnotin
    constructor
    · exact List.nodup_cons.mpr ⟨fun hmem => hnotin (h.2 url hmem), h.1⟩
    · intro x hx
      rcases List.mem_cons.mp hx with hx1 | hx2
      · rw [hx1]
        exact List.mem_cons_self url s.visited
      · exact List.mem_cons_of_mem _ (h.2 x hx2)

theorem wb_crawl_page_inv (env : CrawlEnv) (cfg : Config) (s : CrawlState) (url : Chars)
    (h : crawlInv s) : crawlInv (crawl_page env cfg s url) := by
  have hd := wb_download_file_inv env s url h
  simp only [crawl_page]
  split
  · split
    · have hL := wb_enqueueLink_foldl_fields cfg
        ((env.hrefs url).map (fun hr => env.urljoin url (cleanWaybackUrl hr)))
        (download_file env s url).1
      have hR := wb_enqueueResource_foldl_fields (env.resources url)
        (((env.hrefs url).map (fun hr => env.urljoin url (cleanWaybackUrl hr))).foldl
          (enqueueLink cfg) (download_file env s url).1)
      exact wb_crawlInv_of_eq _ _ (hR.1.trans hL.1) (hR.2.trans hL.2) hd
    · exact hd
  · exact hd

theorem wb_crawlLoop_inv (env : CrawlEnv) (cfg : Config) (mp : Option Int) (fuel : Nat) :
    ∀ s : CrawlState, crawlInv s → crawlInv (crawlLoop env cfg mp fuel s) := by
  induction fuel with
  | zero => exact fun s h => h
  | succ n ih =>
    intro s h
    cases hq : s.queue with
    | nil => simpa [crawlLoop, hq] using h
    | cons url rest =>
      simp only [crawlLoop, hq]
      by_cases hs : shouldStop mp s.visited.length = true
      · simpa [hs] using h
      · simp only [Bool.not_eq_true] at hs
        simp only [hs, Bool.false_eq_true, if_false]
        exact ih _ (wb_crawl_page_inv env cfg _ url
          (wb_crawlInv_of_eq _ _ rfl rfl h))

theorem wb_count_le_one_of_nodup (u : Chars) (l : List Chars) (h : l.Nodup) :
    l.count u ≤ 1 := by
  induction l with
  | nil => simp
  | cons x xs ih =>
    rcases List.nodup_cons.mp h with ⟨hx, hxs⟩
    by_cases he : u = x
    · subst he
      have hz : List.count u xs = 0 := List.count_eq_zero.mpr hx
      simp [List.count_cons, hz]
    · have hb : (x == u) = false := beq_eq_false_iff_ne.mpr (fun hh => he hh.symm)
      simp [List.count_cons, hb, ih hxs]

/-- C3: across a full crawl run, no URL is fetched more than once. The
visited-set membership is checked, and the URL inserted, before the
network call inside `_download_file`, so whatever the environment
(discovered links, resource lists, fetch outcomes, page cap) and
however often a URL is enqueued, the log of initiated fetches contains
each URL at most once. -/
theorem c3_no_duplicate_fetch (env : CrawlEnv) (cfg : Config) (mp : Option Int)
    (fuel : Nat) (start u : Chars) :
    List.count u (crawlLoop env cfg mp fuel ⟨[], [start], []⟩).fetchLog ≤ 1 := by
  have h0 : crawlInv ⟨[], [start], []⟩ := ⟨List.nodup_nil, fun x hx => absurd hx (List.not_mem_nil x)⟩
  have h := wb_crawlLoop_inv env cfg mp fuel _ h0
  exact wb_count_le_one_of_nodup u _ h.1

/-- C9: in the per-reference rewriting step, when the relative-path
computation for an internal, in-scope reference fails (the
`RewriteSkip` case, modelled by `relpath` returning `none`), the
reference's attribute is left unmodified and the URL is omitted from
the returned discovered-resources contribution, so it is never
enqueued or downloaded. -/
theorem c9_relpath_failure_skips (env : RewriteEnv) (cfg : Config) (baseUrl tagUrl : Chars)
    (hstatic : (containsStr ("web.archive.org".toList) tagUrl
        && containsStr ("/static/".toList) tagUrl) = false)
    (hint : is_internal_url cfg (rewriteAbs env baseUrl tagUrl) = true)
    (hscope : is_within_base_path cfg (rewriteAbs env baseUrl tagUrl) = true)
    (hrel : env.relpath (url_to_filepath cfg (rewriteAbs env baseUrl tagUrl))
        (posixParent (url_to_filepath cfg baseUrl)) = none) :
    rewriteTag env cfg baseUrl tagUrl = (TagOutcome.kept, []) := by
  unfold rewriteTag
  rw [hstatic]
  simp only [Bool.false_eq_true, if_false]
  rw [hint]
  simp only [if_true]
  rw [hscope]
  simp only [if_true]
  rw [hrel]

/-- C9 witness: a concrete internal in-scope reference whose
relative-path computation fails is kept unchanged and contributes no
resources. -/
theorem c9_relpath_failure_witness :
    rewriteTag ⟨fun _ u => u, fun _ _ => none, fun _ => false⟩ exCfg
      ("http://example.com/".toList) ("/page".toList) = (TagOutcome.kept, []) :=
  c9_relpath_failure_skips ⟨fun _ u => u, fun _ _ => none, fun _ => false⟩ exCfg
    ("http://example.com/".toList) ("/page".toList)
    (by decide) (by decide) (by decide) rfl
